import Mathlib

/-!
Verification of the gdcli OAuth2 / credential-store core.

The data model follows `src/types.ts`.  The Drive/Docs/Slides client-cache
code and the CLI dispatcher are embedded from `src/services/drive-service.ts`,
`src/services/docs-service.ts`, the slides service, and `src/cli.ts`.
The bodies of `oauth-flow.ts`, `account-storage.ts` and `base-service.ts`
are not in the repository snapshot (only their test files and callers are),
so those operations are modelled from the specification, as marked on each
definition.
-/

set_option autoImplicit false

namespace GDCli

/-- `clientId`/`clientSecret`/`refreshToken`/`accessToken?` record
(`OAuth2Credentials` in `src/types.ts`). -/
structure OAuth2Credentials where
  clientId : String
  clientSecret : String
  refreshToken : String
  accessToken : Option String
  deriving DecidableEq, Repr

/-- An authorized account: email plus its OAuth2 material (`Account` in
`src/types.ts`). -/
structure Account where
  email : String
  oauth2 : OAuth2Credentials
  deriving DecidableEq, Repr

/-- The single application registration (`StoredCredentials` in
`src/types.ts`). -/
structure StoredCredentials where
  clientId : String
  clientSecret : String
  deriving DecidableEq, Repr

/-! ### Token exchange (`OAuthFlow.exchangeCode`) -/

/-- A JavaScript field value: `undefined`, `null`, or a string.  Used to
model the provider token-exchange response, whose fields may be absent or
null. -/
inductive JsVal where
  | undef
  | null
  | str (s : String)
  deriving DecidableEq, Repr

/-- The provider token-exchange response body (the `tokens` object of the
client library). -/
structure TokenResponse where
  access_token : JsVal
  refresh_token : JsVal
  deriving DecidableEq, Repr

/-- Result of a successful authorization (`OAuthResult` in
`src/oauth-flow.ts`): a required refresh token and an optional access
token. -/
structure OAuthResult where
  refreshToken : String
  accessToken : Option String
  deriving DecidableEq, Repr

/-- Modelled from the spec: `OAuthFlow.exchangeCode` (the body of
`src/oauth-flow.ts` is missing from the snapshot).  Given the provider
response, it fails with "No refresh token received" when the refresh token
is absent or null, and otherwise returns the refresh token together with
the access token when one is present. -/
def exchangeCode (resp : TokenResponse) : Except String OAuthResult :=
  match resp.refresh_token with
  | .str r =>
      .ok { refreshToken := r,
            accessToken := match resp.access_token with
              | .str a => some a
              | _ => none }
  | _ => .error "No refresh token received"

/-! ### Redirect-URL code extraction (`OAuthFlow.extractCodeFromUrl`)

All string processing is done structurally on `List Char` so that every
definition evaluates inside the kernel. -/

/-- Value of one hexadecimal digit, if `c` is one. -/
def hexVal (c : Char) : Option Nat :=
  if '0' ≤ c ∧ c ≤ '9' then some (c.toNat - '0'.toNat)
  else if 'a' ≤ c ∧ c ≤ 'f' then some (c.toNat - 'a'.toNat + 10)
  else if 'A' ≤ c ∧ c ≤ 'F' then some (c.toNat - 'A'.toNat + 10)
  else none

/-- Standard percent-decoding of a character list: `%HH` becomes the
character with code `HH`; a malformed escape is kept literally. -/
def percentDecodeList : List Char → List Char
  | [] => []
  | '%' :: h1 :: h2 :: rest =>
      match hexVal h1, hexVal h2 with
      | some a, some b => Char.ofNat (16 * a + b) :: percentDecodeList rest
      | _, _ => '%' :: h1 :: h2 :: percentDecodeList rest
  | c :: rest => c :: percentDecodeList rest

/-- Percent-decoding on strings. -/
def percentDecode (s : String) : String := ⟨percentDecodeList s.data⟩

/-- Split off a URL scheme: returns `(scheme, rest)` at the first `://`
occurrence, or `none` when the string has no `://`. -/
def schemeSplit : List Char → Option (List Char × List Char)
  | ':' :: '/' :: '/' :: rest => some ([], rest)
  | c :: rest =>
      match schemeSplit rest with
      | some (sch, r) => some (c :: sch, r)
      | none => none
  | [] => none

/-- Is `c` allowed in a URL scheme (after the first character)? -/
def isSchemeChar (c : Char) : Bool :=
  c.isAlphanum || c = '+' || c = '-' || c = '.'

/-- Modelled from the spec: whether the captured string parses as a URL
(the WHATWG parse used by `new URL(...)` in the missing
`src/oauth-flow.ts` succeeds exactly when the string carries an absolute
scheme).  The model accepts a string with a well-formed nonempty scheme
followed by `://`. -/
def parsesAsUrl (s : String) : Bool :=
  match schemeSplit s.data with
  | some (c :: sch, _) => c.isAlpha && sch.all isSchemeChar
  | _ => false

/-- The part of the list after the first occurrence of the character `c`,
or `none` when `c` does not occur. -/
def afterChar (c : Char) : List Char → Option (List Char)
  | [] => none
  | x :: rest => if x = c then some rest else afterChar c rest

/-- The query component of a captured redirect string: everything after
the first `?` (empty when there is no `?`). -/
def queryOf (s : List Char) : List Char := (afterChar '?' s).getD []

/-- Split a list at every occurrence of the character `c`. -/
def splitChar (c : Char) : List Char → List (List Char)
  | [] => [[]]
  | x :: rest =>
      if x = c then [] :: splitChar c rest
      else
        match splitChar c rest with
        | [] => [[x]]
        | y :: ys => (x :: y) :: ys

/-- Split a list at the first occurrence of `c` into `(before, after)`,
or `none` when `c` does not occur. -/
def splitFirst (c : Char) : List Char → Option (List Char × List Char)
  | [] => none
  | x :: rest =>
      if x = c then some ([], rest)
      else
        match splitFirst c rest with
        | some (k, v) => some (x :: k, v)
        | none => none

/-- Look up the raw (still percent-encoded) value of query parameter
`key` in a query string: the parameters are the `&`-separated components,
each split at its first `=`. -/
def findParam (query : List Char) (key : String) : Option (List Char) :=
  (splitChar '&' query).findSome? fun kv =>
    match splitFirst '=' kv with
    | some (k, v) => if k = key.data then some v else none
    | none => none

/-- The part of the list after the first occurrence of the literal
substring `code=`, or `none` when `code=` does not occur. -/
def afterCodeEq : List Char → Option (List Char)
  | 'c' :: 'o' :: 'd' :: 'e' :: '=' :: rest => some rest
  | _ :: rest => afterCodeEq rest
  | [] => none

/-- The longest prefix not containing the character `c`. -/
def takeUntil (c : Char) : List Char → List Char
  | [] => []
  | x :: rest => if x = c then [] else x :: takeUntil c rest

/-- The two failure kinds of `extractCodeFromUrl`, distinguishable by the
caller. -/
inductive RedirectError where
  /-- The redirect parsed as a URL but carried no `code` parameter
  (e.g. the provider sent `error=access_denied`). -/
  | authorizationDenied
  /-- The captured string is neither a parseable URL nor contains a
  recoverable `code=` fragment. -/
  | invalidRedirect
  deriving DecidableEq, Repr

/-- Modelled from the spec: `OAuthFlow.extractCodeFromUrl` (the body of
`src/oauth-flow.ts` is missing from the snapshot).  If the string parses
as a URL, the decoded `code` query parameter is returned when present and
the call fails with the authorization-denied kind otherwise; if the
string is not a URL, the code is best-effort-extracted after a literal
`code=` substring when one occurs, and otherwise the call fails with the
invalid-redirect kind. -/
def extractCodeFromUrl (s : String) : Except RedirectError String :=
  if parsesAsUrl s then
    match findParam (queryOf s.data) "code" with
    | some v => .ok ⟨percentDecodeList v⟩
    | none => .error .authorizationDenied
  else
    match afterCodeEq s.data with
    | some rest => .ok ⟨percentDecodeList (takeUntil '&' rest)⟩
    | none => .error .invalidRedirect

/-! ### Account storage (`AccountStorage`) -/

/-- JSON values, as produced by parsing a persisted file. -/
inductive Json where
  | null
  | bool (b : Bool)
  | num (n : Int)
  | str (s : String)
  | arr (xs : List Json)
  | obj (fields : List (String × Json))

/-- Look up an object field by key. -/
def jfield (fields : List (String × Json)) (k : String) : Option Json :=
  match fields.find? (fun p => p.1 == k) with
  | some p => some p.2
  | none => none

/-- A required field of the Account invariant: present, a string, and
non-empty. -/
def asNonEmptyStr : Option Json → Option String
  | some (.str s) => if s = "" then none else some s
  | _ => none

/-- Modelled from the spec: validation of one persisted account entry
against the Account invariant (the body of `src/account-storage.ts` is
missing from the snapshot).  The entry must be an object whose `email`
and whose `oauth2.clientId` / `oauth2.clientSecret` /
`oauth2.refreshToken` are all non-empty strings; `accessToken` is kept
when it is a string and dropped otherwise. -/
def validateAccount (j : Json) : Option Account :=
  match j with
  | .obj fields =>
      match asNonEmptyStr (jfield fields "email"), jfield fields "oauth2" with
      | some email, some (.obj ofields) =>
          match asNonEmptyStr (jfield ofields "clientId"),
                asNonEmptyStr (jfield ofields "clientSecret"),
                asNonEmptyStr (jfield ofields "refreshToken") with
          | some ci, some cs, some rt =>
              some { email := email,
                     oauth2 := { clientId := ci, clientSecret := cs, refreshToken := rt,
                                 accessToken := match jfield ofields "accessToken" with
                                   | some (.str t) => some t
                                   | _ => none } }
          | _, _, _ => none
      | _, _ => none
  | _ => none

/-- Serialization of an account for persistence to `accounts.json`
(layout from spec section 6). -/
def accountToJson (a : Account) : Json :=
  .obj [("email", .str a.email),
        ("oauth2", .obj
          ([("clientId", .str a.oauth2.clientId),
            ("clientSecret", .str a.oauth2.clientSecret),
            ("refreshToken", .str a.oauth2.refreshToken)] ++
           (match a.oauth2.accessToken with
            | some t => [("accessToken", .str t)]
            | none => [])))]

/-- Modelled from the spec: the load-time policy of the `AccountStorage`
constructor.  `none` stands for an absent or unparsable accounts file; a
parse result that is not a sequence is treated as empty; within a
sequence each element is independently validated and invalid elements
are skipped. -/
def loadAccounts : Option Json → List Account
  | some (.arr xs) => xs.filterMap validateAccount
  | _ => []

/-- The persisted state of the configuration directory: the parse
results of `credentials.json` and `accounts.json` (`none` = absent or
unparsable). -/
structure FS where
  credentialsFile : Option Json
  accountsFile : Option Json

/-- An `AccountStorage` instance: the in-memory mirror of the account
set plus the directory it persists to. -/
structure AccountStorage where
  accounts : List Account
  fs : FS

/-- Modelled from the spec: `AccountStorage` construction loads the
persisted account set once, applying the resilience policy. -/
def AccountStorage.load (fs : FS) : AccountStorage :=
  { accounts := loadAccounts fs.accountsFile, fs := fs }

/-- Synchronous persistence of the full account set (the sole writer of
`accounts.json`). -/
def AccountStorage.save (s : AccountStorage) : AccountStorage :=
  { s with fs := { s.fs with accountsFile := some (.arr (s.accounts.map accountToJson)) } }

/-- Insert-or-overwrite by email key: the first entry with the same
email is replaced in place, otherwise the account is appended. -/
def upsert (A : Account) : List Account → List Account
  | [] => [A]
  | b :: rest => if b.email = A.email then A :: rest else b :: upsert A rest

/-- Modelled from the spec: `addAccount` inserts/overwrites by email key
and persists the full set synchronously. -/
def AccountStorage.addAccount (s : AccountStorage) (A : Account) : AccountStorage :=
  AccountStorage.save { s with accounts := upsert A s.accounts }

/-- Modelled from the spec: `getAccount` is a pure read of the in-memory
mirror. -/
def AccountStorage.getAccount (s : AccountStorage) (email : String) : Option Account :=
  s.accounts.find? (fun a => a.email == email)

/-- Modelled from the spec: `hasAccount` is a pure read of the in-memory
mirror. -/
def AccountStorage.hasAccount (s : AccountStorage) (email : String) : Bool :=
  s.accounts.any (fun a => a.email == email)

/-- Modelled from the spec: `getAllAccounts` returns the in-memory
mirror. -/
def AccountStorage.getAllAccounts (s : AccountStorage) : List Account :=
  s.accounts

/-- Modelled from the spec: `deleteAccount` removes by key, returns
whether an entry existed, and persists synchronously. -/
def AccountStorage.deleteAccount (s : AccountStorage) (email : String) :
    Bool × AccountStorage :=
  (s.hasAccount email,
   AccountStorage.save { s with accounts := s.accounts.filter (fun a => !(a.email == email)) })

/-- Modelled from the spec: `setCredentials` overwrites the single
`credentials.json` record and persists synchronously. -/
def AccountStorage.setCredentials (s : AccountStorage) (a b : String) : AccountStorage :=
  let creds : Json := .obj [("clientId", .str a), ("clientSecret", .str b)]
  { s with fs := { s.fs with credentialsFile := some creds } }

/-- A string-valued object field, used by `getCredentials`. -/
def asStr : Option Json → Option String
  | some (.str s) => some s
  | _ => none

/-- Modelled from the spec: `getCredentials` returns the stored record,
or `none` when the file is absent, malformed, or missing either string
field. -/
def AccountStorage.getCredentials (s : AccountStorage) : Option StoredCredentials :=
  match s.fs.credentialsFile with
  | some (.obj fields) =>
      match asStr (jfield fields "clientId"), asStr (jfield fields "clientSecret") with
      | some a, some b => some ⟨a, b⟩
      | _, _ => none
  | _ => none

/-- The Account invariant of spec section 3, as a Boolean predicate. -/
def wellFormed (a : Account) : Bool :=
  !(a.email == "") && !(a.oauth2.clientId == "") &&
  !(a.oauth2.clientSecret == "") && !(a.oauth2.refreshToken == "")

/-- The accounts file of the constructor-resilience test: one valid
entry among six invalid/malformed ones
(`src/account-storage.test.ts`). -/
def mixedAccountsFile : Json :=
  .arr
    [.obj [("email", .str "valid@example.com"),
           ("oauth2", .obj [("clientId", .str "a"), ("clientSecret", .str "b"),
                            ("refreshToken", .str "c")])],
     .obj [("email", .str "missing-oauth2")],
     .obj [("oauth2", .obj [("clientId", .str "a"), ("clientSecret", .str "b"),
                            ("refreshToken", .str "c")])],
     .null,
     .str "string",
     .obj [("email", .str "invalid-oauth2"), ("oauth2", .str "not-an-object")],
     .obj [("email", .str "missing-fields"), ("oauth2", .obj [("clientId", .str "a")])]]

/-- The valid entry of `mixedAccountsFile`. -/
def validEntry : Account :=
  { email := "valid@example.com",
    oauth2 := { clientId := "a", clientSecret := "b", refreshToken := "c",
                accessToken := none } }

/-! ### Authorization URL (`OAuthFlow.getAuthUrl`) -/

/-- Unreserved URL characters, kept verbatim by percent-encoding. -/
def isUnreservedChar (c : Char) : Bool :=
  c.isAlphanum || c = '-' || c = '.' || c = '_' || c = '~'

/-- Upper-case hexadecimal digit of a value below 16. -/
def hexDigit (n : Nat) : Char :=
  if n < 10 then Char.ofNat ('0'.toNat + n) else Char.ofNat ('A'.toNat + n - 10)

/-- Percent-encoding of one character (ASCII model). -/
def encodeChar (c : Char) : List Char :=
  if isUnreservedChar c then [c]
  else ['%', hexDigit (c.toNat / 16 % 16), hexDigit (c.toNat % 16)]

/-- Character-wise percent-encoding of a string. -/
def urlEncode (s : String) : String := ⟨(s.data.map encodeChar).flatten⟩

/-- The scopes joined by the provider's delimiter (a space). -/
def joinSpace : List String → String
  | [] => ""
  | [s] => s
  | s :: rest => s ++ " " ++ joinSpace rest

/-- The default scope list: file storage, documents, spreadsheets and
presentations (from the `getDefaultScopes` tests). -/
def DEFAULT_SCOPES : List String :=
  ["https://www.googleapis.com/auth/drive",
   "https://www.googleapis.com/auth/documents",
   "https://www.googleapis.com/auth/spreadsheets",
   "https://www.googleapis.com/auth/presentations"]

/-- `OAuthFlow` construction options (`OAuthFlowOptions` in
`src/oauth-flow.ts`). -/
structure OAuthFlowOptions where
  clientId : String
  clientSecret : String
  scopes : List String
  redirectPort : Nat
  deriving DecidableEq, Repr

/-- Modelled from the spec: `OAuthFlow.getAuthUrl` (the body of
`src/oauth-flow.ts` is missing from the snapshot).  A pure function of
the configuration: the provider's authorization endpoint with the
configured client id, the redirect URI on the configured local port, the
scopes joined by spaces (all percent-encoded), `access_type=offline` and
`prompt=consent`. -/
def getAuthUrl (o : OAuthFlowOptions) : String :=
  "https://accounts.google.com/o/oauth2/v2/auth" ++
  "?client_id=" ++ urlEncode o.clientId ++
  "&redirect_uri=" ++ urlEncode ("http://localhost:" ++ toString o.redirectPort) ++
  "&response_type=code" ++
  "&scope=" ++ urlEncode (joinSpace o.scopes) ++
  "&access_type=offline&prompt=consent"

/-- `needle` occurs as a contiguous substring of `hay`. -/
def strContains (hay needle : String) : Prop := needle.data <:+: hay.data

instance (hay needle : String) : Decidable (strContains hay needle) :=
  List.decidableInfix needle.data hay.data

/-! ### Freshness of `OAuthFlow.getDefaultScopes`

JavaScript array identity is modelled by a heap of arrays: a returned
scope list is a reference (an index) into the heap, and mutation happens
in place through a reference. -/

/-- The heap of allocated scope arrays. -/
abbrev ScopeHeap := List (List String)

/-- Modelled from the spec: `OAuthFlow.getDefaultScopes` returns a fresh
copy of the default scope list each call — a newly allocated array whose
content is `DEFAULT_SCOPES` (the body of `src/oauth-flow.ts` is missing
from the snapshot). -/
def getDefaultScopes (h : ScopeHeap) : Nat × ScopeHeap :=
  (h.length, h ++ [DEFAULT_SCOPES])

/-- Dereference a returned scope-list reference. -/
def heapGet (h : ScopeHeap) (r : Nat) : List String := h.getD r []

/-- In-place mutation (a JavaScript `push`) through a returned
reference. -/
def heapPush (h : ScopeHeap) (r : Nat) (x : String) : ScopeHeap :=
  h.set r (heapGet h r ++ [x])

/-! ### Per-surface client cache (drive/docs/slides services and
`BaseService`)

JavaScript object identity of constructed clients is modelled by an
allocation counter: every constructed client carries the counter value
at its construction, so two objects constructed at different times are
distinct values. -/

/-- An OAuth2 client constructed by `BaseService.createOAuth2Client`:
an allocation identity plus the account credentials it was bound to. -/
structure OAuth2Client where
  id : Nat
  creds : OAuth2Credentials
  deriving DecidableEq, Repr

/-- An API-surface handle (the object made by `google.drive` /
`google.docs` / `google.slides`): an allocation identity plus the auth
client it binds. -/
structure ApiHandle where
  id : Nat
  auth : OAuth2Client
  deriving DecidableEq, Repr

/-- The state of one API-surface service instance: the storage's account
set, the shared `BaseService` OAuth2-client cache, the per-surface handle
map, and the allocation counter. -/
structure ServiceState where
  storage : List Account
  baseClients : List (String × OAuth2Client)
  surfaceClients : List (String × ApiHandle)
  nextId : Nat
  deriving DecidableEq, Repr

/-- The stored account for an email, if any. -/
def getAccountIn (l : List Account) (email : String) : Option Account :=
  l.find? (fun a => a.email == email)

/-- Modelled from the spec: `BaseService.createOAuth2Client` (the body of
`src/services/base-service.ts` is missing from the snapshot) constructs
a new OAuth2 client carrying the account's stored credentials. -/
def createOAuth2Client (acct : Account) (st : ServiceState) :
    OAuth2Client × ServiceState :=
  ({ id := st.nextId, creds := acct.oauth2 }, { st with nextId := st.nextId + 1 })

/-- Modelled from the spec: `BaseService.getOAuth2Client` fails for an
email with no stored account and otherwise returns the cached client for
the email, constructing and caching one on first use. -/
def getOAuth2Client (email : String) (st : ServiceState) :
    Except String (OAuth2Client × ServiceState) :=
  match getAccountIn st.storage email with
  | none => .error ("Account '" ++ email ++ "' not found")
  | some acct =>
      match st.baseClients.lookup email with
      | some c => .ok (c, st)
      | none =>
          let cst := createOAuth2Client acct st
          .ok (cst.1, { cst.2 with baseClients := (email, cst.1) :: cst.2.baseClients })

/-- Embedded from `DriveService.getDriveClient`
(`src/services/drive-service.ts`); `DocsService.getDocsClient` and
`SlidesService.getSlidesClient` are textually identical, and the sheets
variant (missing from the snapshot) is modelled from the spec, which
applies the same policy to every surface: return the cached handle for
the email, constructing one bound to the email's OAuth2 client on first
use. -/
def getSurfaceClient (email : String) (st : ServiceState) :
    Except String (ApiHandle × ServiceState) :=
  match st.surfaceClients.lookup email with
  | some h => .ok (h, st)
  | none =>
      match getOAuth2Client email st with
      | .error e => .error e
      | .ok (auth, st') =>
          let h : ApiHandle := { id := st'.nextId, auth := auth }
          let cache := (email, h) :: st'.surfaceClients
          .ok (h, { st' with surfaceClients := cache, nextId := st'.nextId + 1 })

/-- Modelled from the spec: `BaseService.clearClientCache` evicts one
email's OAuth2 client, or every client when no email is given. -/
def clearClientCache (email : Option String) (st : ServiceState) : ServiceState :=
  match email with
  | some e => { st with baseClients := st.baseClients.filter (fun p => !(p.1 == e)) }
  | none => { st with baseClients := [] }

/-- Embedded from `DriveService.clearDriveClientCache`
(`src/services/drive-service.ts`); `DocsService.clearDocsClientCache` and
`SlidesService.clearSlidesClientCache` are textually identical: evict the
surface handle for the email (or the whole handle map when no email is
given) and then clear the base OAuth2-client cache with the same
argument. -/
def clearSurfaceClientCache (email : Option String) (st : ServiceState) : ServiceState :=
  let st1 := match email with
    | some e => { st with surfaceClients := st.surfaceClients.filter (fun p => !(p.1 == e)) }
    | none => { st with surfaceClients := [] }
  clearClientCache email st1

/-- Test fixture: two stored accounts. -/
def acctA : Account := ⟨"a@example.com", ⟨"ca", "sa", "ra", none⟩⟩

/-- Test fixture: the second stored account. -/
def acctB : Account := ⟨"b@example.com", ⟨"cb", "sb", "rb", none⟩⟩

/-- Test fixture: a cold service over the two accounts. -/
def st0 : ServiceState := ⟨[acctA, acctB], [], [], 0⟩

/-- Test fixture: the OAuth2 client constructed for `acctA` from
`st0`. -/
def authA : OAuth2Client := ⟨0, acctA.oauth2⟩

/-- Test fixture: the handle constructed for `acctA` from `st0`. -/
def handA : ApiHandle := ⟨1, authA⟩

/-- Test fixture: the state after the first handle request for
`acctA`. -/
def st1 : ServiceState :=
  ⟨[acctA, acctB], [("a@example.com", authA)], [("a@example.com", handA)], 2⟩

/-- Test fixture: the OAuth2 client constructed for `acctB` from
`st1`. -/
def authB : OAuth2Client := ⟨2, acctB.oauth2⟩

/-- Test fixture: the handle constructed for `acctB` from `st1`. -/
def handB : ApiHandle := ⟨3, authB⟩

/-- Test fixture: the state after handle requests for both accounts. -/
def st2 : ServiceState :=
  ⟨[acctA, acctB],
   [("b@example.com", authB), ("a@example.com", authA)],
   [("b@example.com", handB), ("a@example.com", handA)], 4⟩

/-! ### CLI `accounts add` (`src/cli.ts`, `handleAccounts` case "add") -/

/-- The externally visible steps of the add flow, in order. -/
inductive CliEvent where
  /-- `new OAuthFlow(...)` was constructed. -/
  | constructedOAuthFlow
  /-- `flow.authorize(manual)` completed successfully. -/
  | authorized
  /-- `storage.addAccount(...)` was called. -/
  | addedAccount
  deriving DecidableEq, Repr

/-- Embedded from `handleAccounts` case "add" in `src/cli.ts`: check the
email is fresh, then load credentials, then construct the flow and
authorize (the interactive `authorize` outcome is supplied as the `auth`
oracle), then store the account built from the credentials and the
authorization result.  `error(...)` in the source prints and exits
non-zero, modelled as `Except.error`; the event list records which steps
ran. -/
def handleAccountsAdd (st : AccountStorage) (email : String)
    (auth : Except String OAuthResult) :
    List CliEvent × Except String AccountStorage :=
  if st.hasAccount email then
    ([], .error ("Account '" ++ email ++ "' already exists"))
  else
    match st.getCredentials with
    | none => ([], .error "No credentials configured. Run: gdcli accounts credentials <credentials.json>")
    | some creds =>
        match auth with
        | .error e => ([.constructedOAuthFlow], .error e)
        | .ok r =>
            ([.constructedOAuthFlow, .authorized, .addedAccount],
             .ok (st.addAccount
               ⟨email, ⟨creds.clientId, creds.clientSecret, r.refreshToken, r.accessToken⟩⟩))

/-- C1: `extractCodeFromUrl` satisfies the four-way contract: a parseable
URL with a `code` parameter yields that parameter percent-decoded; a
parseable URL without one fails with the authorization-denied kind; a
non-URL containing `code=` yields the best-effort-extracted fragment; a
non-URL without `code=` fails with the invalid-redirect kind; the two
failure kinds are distinguishable.  The concrete conjuncts are the
spec's examples. -/
theorem extractCodeFromUrl_contract :
    (∀ (s : String) (v : List Char), parsesAsUrl s = true →
        findParam (queryOf s.data) "code" = some v →
        extractCodeFromUrl s = .ok ⟨percentDecodeList v⟩) ∧
    (∀ s : String, parsesAsUrl s = true →
        findParam (queryOf s.data) "code" = none →
        extractCodeFromUrl s = .error .authorizationDenied) ∧
    (∀ (s : String) (rest : List Char), parsesAsUrl s = false →
        afterCodeEq s.data = some rest →
        extractCodeFromUrl s = .ok ⟨percentDecodeList (takeUntil '&' rest)⟩) ∧
    (∀ s : String, parsesAsUrl s = false → afterCodeEq s.data = none →
        extractCodeFromUrl s = .error .invalidRedirect) ∧
    extractCodeFromUrl "http://localhost:3000?code=abc%2F123%3D%3D" = .ok "abc/123==" ∧
    extractCodeFromUrl "not-a-url?code=abc123" = .ok "abc123" ∧
    extractCodeFromUrl "http://localhost:3000?error=access_denied" =
      .error .authorizationDenied ∧
    extractCodeFromUrl "not-a-url-at-all" = .error .invalidRedirect ∧
    RedirectError.authorizationDenied ≠ RedirectError.invalidRedirect := by
  refine ⟨?_, ?_, ?_, ?_, rfl, rfl, rfl, rfl, by decide⟩
  · intro s v h1 h2
    simp [extractCodeFromUrl, h1, h2]
  · intro s h1 h2
    simp [extractCodeFromUrl, h1, h2]
  · intro s rest h1 h2
    simp [extractCodeFromUrl, h1, h2]
  · intro s h1 h2
    simp [extractCodeFromUrl, h1, h2]

/-- Witness for C1: the general conjuncts applied at concrete inputs. -/
theorem extractCodeFromUrl_contract_witness :
    extractCodeFromUrl "https://x.y?a=1&code=q%20r" =
      .ok ⟨percentDecodeList "q%20r".data⟩ ∧
    extractCodeFromUrl "https://x.y?error=denied" = .error .authorizationDenied ∧
    extractCodeFromUrl "oops?code=zz&s=1" =
      .ok ⟨percentDecodeList (takeUntil '&' "zz&s=1".data)⟩ ∧
    extractCodeFromUrl "garbage" = .error .invalidRedirect :=
  ⟨extractCodeFromUrl_contract.1 _ _ (by decide) (by decide),
   extractCodeFromUrl_contract.2.1 _ (by decide) (by decide),
   extractCodeFromUrl_contract.2.2.1 _ _ (by decide) (by decide),
   extractCodeFromUrl_contract.2.2.2.1 _ (by decide) (by decide)⟩

/-- C2: `exchangeCode` fails with "No refresh token received" whenever the
response's refresh token is null or absent (even when an access token is
present); with both tokens present it returns both; with only the refresh
token it returns it and no access token, which is not an error. -/
theorem exchangeCode_contract :
    (∀ a : JsVal, exchangeCode ⟨a, .null⟩ = .error "No refresh token received") ∧
    (∀ a : JsVal, exchangeCode ⟨a, .undef⟩ = .error "No refresh token received") ∧
    (∀ a r : String, exchangeCode ⟨.str a, .str r⟩ = .ok ⟨r, some a⟩) ∧
    (∀ r : String, exchangeCode ⟨.undef, .str r⟩ = .ok ⟨r, none⟩) := by
  refine ⟨fun a => rfl, fun a => rfl, fun a r => rfl, fun r => rfl⟩

/-- Serialization/validation round-trip for one well-formed account. -/
theorem validateAccount_accountToJson (A : Account) (h : wellFormed A = true) :
    validateAccount (accountToJson A) = some A := by
  obtain ⟨email, ci, cs, rt, tok⟩ := A
  simp only [wellFormed, Bool.and_eq_true, Bool.not_eq_true', beq_eq_false_iff_ne,
    ne_eq] at h
  obtain ⟨⟨⟨h1, h2⟩, h3⟩, h4⟩ := h
  cases tok with
  | none => simp [accountToJson, validateAccount, jfield, asNonEmptyStr, h1, h2, h3, h4]
  | some t => simp [accountToJson, validateAccount, jfield, asNonEmptyStr, h1, h2, h3, h4]

/-- Loading a serialized list of well-formed accounts restores it
exactly. -/
theorem filterMap_validate_map (l : List Account) (h : ∀ a ∈ l, wellFormed a = true) :
    (l.map accountToJson).filterMap validateAccount = l := by
  induction l with
  | nil => rfl
  | cons a rest ih =>
      simp [List.filterMap_cons, validateAccount_accountToJson a (h a (by simp)),
        ih (fun b hb => h b (by simp [hb]))]

/-- After an upsert, the first entry under the new account's email is the
new account. -/
theorem find?_upsert (A : Account) (l : List Account) :
    (upsert A l).find? (fun b => b.email == A.email) = some A := by
  induction l with
  | nil => simp [upsert, List.find?]
  | cons b rest ih =>
      by_cases hb : b.email = A.email
      · simp [upsert, hb, List.find?]
      · simp [upsert, hb, List.find?, ih]

/-- Upserting an email that is already present keeps the length. -/
theorem length_upsert_of_has (A : Account) (l : List Account)
    (h : l.any (fun b => b.email == A.email) = true) :
    (upsert A l).length = l.length := by
  induction l with
  | nil => simp at h
  | cons b rest ih =>
      by_cases hb : b.email = A.email
      · simp [upsert, hb]
      · have hrest : rest.any (fun b => b.email == A.email) = true := by
          simpa [List.any_cons, hb] using h
        simp [upsert, hb, ih hrest]

/-- Every member of an upsert result is the new account or an old
member. -/
theorem mem_upsert (A x : Account) (l : List Account) (h : x ∈ upsert A l) :
    x = A ∨ x ∈ l := by
  induction l with
  | nil => simpa [upsert] using h
  | cons b rest ih =>
      by_cases hb : b.email = A.email
      · simp [upsert, hb] at h
        rcases h with h | h
        · exact .inl h
        · exact .inr (by simp [h])
      · simp [upsert, hb] at h
        rcases h with h | h
        · exact .inr (by simp [h])
        · rcases ih h with h' | h'
          · exact .inl h'
          · exact .inr (by simp [h'])

/-- Filtering out an email makes `any` over that email false. -/
theorem any_filter_email (email : String) (l : List Account) :
    (l.filter (fun a => !(a.email == email))).any (fun a => a.email == email) = false := by
  induction l with
  | nil => rfl
  | cons b rest ih =>
      by_cases hb : b.email = email
      · simp [List.filter_cons, hb, ih]
      · simp [List.filter_cons, hb, List.any_cons, ih]

/-- C4: constructing an `AccountStorage` over an unparsable or
non-sequence accounts file yields an empty account set without error;
within a sequence each element is independently validated and invalid
elements are individually skipped; the test file of one valid and six
invalid entries loads to exactly the one valid account. -/
theorem loadAccounts_resilience :
    loadAccounts none = [] ∧
    (∀ j : Json, (∀ xs, j ≠ .arr xs) → loadAccounts (some j) = []) ∧
    (∀ (xs : List Json) (j : Json) (a : Account), j ∈ xs → validateAccount j = some a →
        a ∈ loadAccounts (some (.arr xs))) ∧
    (∀ xs : List Json,
        (loadAccounts (some (.arr xs))).length =
          (xs.filter (fun j => (validateAccount j).isSome)).length) ∧
    loadAccounts (some mixedAccountsFile) = [validEntry] := by
  refine ⟨rfl, ?_, ?_, ?_, by decide⟩
  · intro j hj
    cases j with
    | arr xs => exact absurd rfl (hj xs)
    | null => rfl
    | bool b => rfl
    | num n => rfl
    | str s => rfl
    | obj fields => rfl
  · intro xs j a hmem hval
    simp only [loadAccounts, List.mem_filterMap]
    exact ⟨j, hmem, hval⟩
  · intro xs
    induction xs with
    | nil => rfl
    | cons j rest ih =>
        cases hv : validateAccount j <;>
          simp_all [loadAccounts, List.filterMap_cons, List.filter_cons, hv]

/-- Witness for C4: the general conjuncts applied at concrete inputs. -/
theorem loadAccounts_resilience_witness :
    loadAccounts (some (.str "oops")) = [] ∧
    validEntry ∈ loadAccounts (some (.arr [.null, accountToJson validEntry])) :=
  ⟨loadAccounts_resilience.2.1 _ (fun xs h => Json.noConfusion h),
   loadAccounts_resilience.2.2.1 _ _ _ (.tail _ (.head _)) (by decide)⟩

/-- C5: persistence round-trips across instances over the same
directory: credentials set then reloaded are returned; an added
well-formed account deep-equals itself after a fresh load; after a
delete a fresh load reports the account absent. -/
theorem storage_roundtrip (s : AccountStorage) (a b : String) (A : Account)
    (hA : wellFormed A = true) (hs : ∀ x ∈ s.accounts, wellFormed x = true) :
    (AccountStorage.load (s.setCredentials a b).fs).getCredentials = some ⟨a, b⟩ ∧
    (AccountStorage.load (s.addAccount A).fs).getAccount A.email = some A ∧
    (AccountStorage.load ((s.addAccount A).deleteAccount A.email).2.fs).hasAccount A.email
      = false := by
  have hup : ∀ x ∈ upsert A s.accounts, wellFormed x = true := by
    intro x hx
    rcases mem_upsert A x s.accounts hx with h | h
    · exact h ▸ hA
    · exact hs x h
  refine ⟨?_, ?_, ?_⟩
  · simp [AccountStorage.load, AccountStorage.setCredentials, AccountStorage.getCredentials,
      jfield, asStr]
  · simp only [AccountStorage.load, AccountStorage.addAccount, AccountStorage.save,
      AccountStorage.getAccount, loadAccounts, filterMap_validate_map _ hup]
    exact find?_upsert A s.accounts
  · have hdel : ∀ x ∈ (upsert A s.accounts).filter (fun c => !(c.email == A.email)),
        wellFormed x = true := by
      intro x hx
      exact hup x (List.mem_of_mem_filter hx)
    simp only [AccountStorage.load, AccountStorage.addAccount, AccountStorage.deleteAccount,
      AccountStorage.save, AccountStorage.hasAccount, loadAccounts,
      filterMap_validate_map _ hdel]
    exact any_filter_email A.email (upsert A s.accounts)

/-- Witness for C5: the round-trip applied to an empty store and the
test account. -/
theorem storage_roundtrip_witness :
    (AccountStorage.load ((AccountStorage.mk [] ⟨none, none⟩).setCredentials "id" "sec").fs).getCredentials
      = some ⟨"id", "sec"⟩ ∧
    (AccountStorage.load ((AccountStorage.mk [] ⟨none, none⟩).addAccount validEntry).fs).getAccount
      validEntry.email = some validEntry ∧
    (AccountStorage.load
        (((AccountStorage.mk [] ⟨none, none⟩).addAccount validEntry).deleteAccount
          validEntry.email).2.fs).hasAccount validEntry.email = false :=
  storage_roundtrip (AccountStorage.mk [] ⟨none, none⟩) "id" "sec" validEntry
    (by decide) (by intro x hx; exact absurd hx (List.not_mem_nil x))

/-- C6: re-adding an account whose email is already stored replaces the
existing entry in place: the account count stays constant and the new
values are returned for that email. -/
theorem addAccount_replaces (s : AccountStorage) (A : Account)
    (h : s.hasAccount A.email = true) :
    (s.addAccount A).getAllAccounts.length = s.getAllAccounts.length ∧
    (s.addAccount A).getAccount A.email = some A := by
  constructor
  · simp only [AccountStorage.addAccount, AccountStorage.save, AccountStorage.getAllAccounts]
    exact length_upsert_of_has A s.accounts h
  · simp only [AccountStorage.addAccount, AccountStorage.save, AccountStorage.getAccount]
    exact find?_upsert A s.accounts

/-- Witness for C6: replacing the stored test account with new values. -/
theorem addAccount_replaces_witness :
    ((AccountStorage.mk [validEntry] ⟨none, none⟩).addAccount
        (Account.mk "valid@example.com" ⟨"n1", "n2", "n3", none⟩)).getAllAccounts.length
      = (AccountStorage.mk [validEntry] ⟨none, none⟩).getAllAccounts.length ∧
    ((AccountStorage.mk [validEntry] ⟨none, none⟩).addAccount
        (Account.mk "valid@example.com" ⟨"n1", "n2", "n3", none⟩)).getAccount
        "valid@example.com"
      = some (Account.mk "valid@example.com" ⟨"n1", "n2", "n3", none⟩) :=
  addAccount_replaces (AccountStorage.mk [validEntry] ⟨none, none⟩)
    (Account.mk "valid@example.com" ⟨"n1", "n2", "n3", none⟩) (by decide)

/-- The characters of `urlEncode`, unfolded. -/
theorem urlEncode_data (s : String) :
    (urlEncode s).data = (s.data.map encodeChar).flatten := rfl

/-- A substring of a chunk of a decomposition is a substring of the
whole. -/
theorem strContains_of_decomp (hay needle : String) (pre mid post : List Char)
    (hhay : hay.data = pre ++ mid ++ post) (hmid : needle.data <:+: mid) :
    strContains hay needle :=
  hmid.trans ⟨pre, post, hhay.symm⟩

/-- A member of a scope list occurs contiguously in the space-joined
scope string. -/
theorem joinSpace_decomp (s : String) (l : List String) (h : s ∈ l) :
    ∃ p q : List Char, (joinSpace l).data = p ++ s.data ++ q := by
  induction l with
  | nil => simp at h
  | cons x rest ih =>
      rcases List.mem_cons.mp h with rfl | hmem
      · cases rest with
        | nil => exact ⟨[], [], by simp [joinSpace]⟩
        | cons y ys =>
            exact ⟨[], (" " ++ joinSpace (y :: ys)).data,
              by simp [joinSpace, String.data_append]⟩
      · cases rest with
        | nil => simp at hmem
        | cons y ys =>
            obtain ⟨p, q, hpq⟩ := ih hmem
            refine ⟨x.data ++ (" " : String).data ++ p, q, ?_⟩
            simp [joinSpace, String.data_append, hpq]

/-- Percent-encoding a scope that occurs in a list yields a substring of
the percent-encoded joined list. -/
theorem urlEncode_infix_of_mem (s : String) (l : List String) (h : s ∈ l) :
    (urlEncode s).data <:+: (urlEncode (joinSpace l)).data := by
  obtain ⟨p, q, hpq⟩ := joinSpace_decomp s l h
  refine ⟨(p.map encodeChar).flatten, (q.map encodeChar).flatten, ?_⟩
  simp [urlEncode_data, hpq, List.map_append, List.flatten_append, List.append_assoc]

/-- C7: for every configuration, `getAuthUrl` — a pure function of the
configuration — contains the configured client id verbatim (whenever the
client id consists of unreserved characters, so that encoding keeps it
verbatim), contains `access_type=offline` and `prompt=consent`, and
contains a URL-encoded representation of every configured scope. -/
theorem getAuthUrl_contract (o : OAuthFlowOptions)
    (hc : urlEncode o.clientId = o.clientId) :
    strContains (getAuthUrl o) o.clientId ∧
    strContains (getAuthUrl o) "access_type=offline" ∧
    strContains (getAuthUrl o) "prompt=consent" ∧
    ∀ s ∈ o.scopes, strContains (getAuthUrl o) (urlEncode s) := by
  refine ⟨?_, ?_, ?_, ?_⟩
  · refine strContains_of_decomp _ _
      ("https://accounts.google.com/o/oauth2/v2/auth?client_id=" : String).data
      (urlEncode o.clientId).data
      (("&redirect_uri=" ++ urlEncode ("http://localhost:" ++ toString o.redirectPort) ++
        "&response_type=code" ++ "&scope=" ++ urlEncode (joinSpace o.scopes) ++
        "&access_type=offline&prompt=consent" : String).data) ?_ ?_
    · simp [getAuthUrl, String.data_append, List.append_assoc]
    · rw [hc]
  · refine strContains_of_decomp _ _
      (("https://accounts.google.com/o/oauth2/v2/auth?client_id=" ++ urlEncode o.clientId ++
        "&redirect_uri=" ++ urlEncode ("http://localhost:" ++ toString o.redirectPort) ++
        "&response_type=code" ++ "&scope=" ++ urlEncode (joinSpace o.scopes) : String).data)
      (("&access_type=offline&prompt=consent" : String).data) [] ?_ (by decide)
    · simp [getAuthUrl, String.data_append, List.append_assoc]
  · refine strContains_of_decomp _ _
      (("https://accounts.google.com/o/oauth2/v2/auth?client_id=" ++ urlEncode o.clientId ++
        "&redirect_uri=" ++ urlEncode ("http://localhost:" ++ toString o.redirectPort) ++
        "&response_type=code" ++ "&scope=" ++ urlEncode (joinSpace o.scopes) : String).data)
      (("&access_type=offline&prompt=consent" : String).data) [] ?_ (by decide)
    · simp [getAuthUrl, String.data_append, List.append_assoc]
  · intro s hs
    refine strContains_of_decomp _ _
      (("https://accounts.google.com/o/oauth2/v2/auth?client_id=" ++ urlEncode o.clientId ++
        "&redirect_uri=" ++ urlEncode ("http://localhost:" ++ toString o.redirectPort) ++
        "&response_type=code" ++ "&scope=" : String).data)
      ((urlEncode (joinSpace o.scopes)).data)
      (("&access_type=offline&prompt=consent" : String).data) ?_
      (urlEncode_infix_of_mem s o.scopes hs)
    · simp [getAuthUrl, String.data_append, List.append_assoc]

/-- Witness for C7: the contract at a concrete configuration. -/
theorem getAuthUrl_contract_witness :
    strContains (getAuthUrl ⟨"abc", "sec", ["s1"], 3000⟩) "abc" ∧
    strContains (getAuthUrl ⟨"abc", "sec", ["s1"], 3000⟩) "access_type=offline" ∧
    strContains (getAuthUrl ⟨"abc", "sec", ["s1"], 3000⟩) "prompt=consent" ∧
    ∀ s ∈ (["s1"] : List String),
      strContains (getAuthUrl ⟨"abc", "sec", ["s1"], 3000⟩) (urlEncode s) :=
  getAuthUrl_contract ⟨"abc", "sec", ["s1"], 3000⟩ (by decide)

/-- Reading the freshly appended cell returns its content. -/
theorem getD_append_length (l : List (List String)) (D : List String) :
    (l ++ [D]).getD l.length [] = D := by
  induction l with
  | nil => rfl
  | cons x rest ih => simp [ih]

/-- Writing the cell before the last leaves the last cell unchanged. -/
theorem getD_set_append (l : List (List String)) (v D E : List String) :
    ((l ++ [D] ++ [E]).set l.length v).getD (l.length + 1) [] = E := by
  induction l with
  | nil => rfl
  | cons x rest ih => simpa using ih

/-- C8: two `getDefaultScopes` calls return two independent fresh copies
of the default scope list: the references are distinct, both hold
`DEFAULT_SCOPES`, and pushing onto the first leaves the second holding
exactly the defaults, never the pushed element. -/
theorem getDefaultScopes_fresh (h0 : ScopeHeap) :
    (getDefaultScopes h0).1 ≠ (getDefaultScopes (getDefaultScopes h0).2).1 ∧
    heapGet ((getDefaultScopes h0).2) ((getDefaultScopes h0).1) = DEFAULT_SCOPES ∧
    heapGet (heapPush ((getDefaultScopes (getDefaultScopes h0).2).2)
        ((getDefaultScopes h0).1) "modified")
        ((getDefaultScopes (getDefaultScopes h0).2).1) = DEFAULT_SCOPES ∧
    "modified" ∉ heapGet (heapPush ((getDefaultScopes (getDefaultScopes h0).2).2)
        ((getDefaultScopes h0).1) "modified")
        ((getDefaultScopes (getDefaultScopes h0).2).1) := by
  have key : heapGet (heapPush ((getDefaultScopes (getDefaultScopes h0).2).2)
      ((getDefaultScopes h0).1) "modified")
      ((getDefaultScopes (getDefaultScopes h0).2).1) = DEFAULT_SCOPES := by
    simp only [getDefaultScopes, heapPush, heapGet, List.length_append, List.length_cons,
      List.length_nil]
    exact getD_set_append h0 _ _ _
  refine ⟨by simp [getDefaultScopes], ?_, key, by rw [key]; decide⟩
  simp only [getDefaultScopes, heapGet]
  exact getD_append_length h0 _

/-- Association-list lookup of a cons with the queried key. -/
theorem lookup_cons_self {α : Type} (e : String) (v : α) (l : List (String × α)) :
    ((e, v) :: l).lookup e = some v := by
  simp [List.lookup]

/-- Association-list lookup of a cons with a different key. -/
theorem lookup_cons_ne {α : Type} (e e' : String) (h : e' ≠ e) (v : α)
    (l : List (String × α)) :
    ((e, v) :: l).lookup e' = l.lookup e' := by
  have hke : (e' == e) = false := beq_eq_false_iff_ne.mpr h
  simp [List.lookup, hke]

/-- Deleting a key from an association list makes its lookup `none`. -/
theorem lookup_filter_self {α : Type} (e : String) (l : List (String × α)) :
    (l.filter (fun p => !(p.1 == e))).lookup e = none := by
  induction l with
  | nil => rfl
  | cons p rest ih =>
      obtain ⟨k, v⟩ := p
      by_cases hk : k = e
      · simpa [List.filter_cons, hk] using ih
      · have hke : (e == k) = false := beq_eq_false_iff_ne.mpr (Ne.symm hk)
        simp [List.filter_cons, hk, List.lookup, hke, ih]

/-- Deleting a key from an association list leaves other lookups
unchanged. -/
theorem lookup_filter_ne {α : Type} (e e' : String) (h : e' ≠ e) (l : List (String × α)) :
    (l.filter (fun p => !(p.1 == e))).lookup e' = l.lookup e' := by
  induction l with
  | nil => rfl
  | cons p rest ih =>
      obtain ⟨k, v⟩ := p
      by_cases hk : k = e
      · have hke : (e' == e) = false := beq_eq_false_iff_ne.mpr h
        simp [List.filter_cons, hk, List.lookup, hke, ih]
      · by_cases hek : e' = k
        · simp [List.filter_cons, hk, List.lookup, hek]
        · have hke : (e' == k) = false := beq_eq_false_iff_ne.mpr hek
          simp [List.filter_cons, hk, List.lookup, hke, ih]

/-- A cached surface handle is returned as-is. -/
theorem getSurfaceClient_cached (email : String) (st : ServiceState) (h : ApiHandle)
    (hsurf : st.surfaceClients.lookup email = some h) :
    getSurfaceClient email st = .ok (h, st) := by
  unfold getSurfaceClient
  rw [hsurf]

/-- Full characterization of a completely cold handle request. -/
theorem getSurfaceClient_coldFull (email : String) (st : ServiceState) (acct : Account)
    (hacct : getAccountIn st.storage email = some acct)
    (hsurf : st.surfaceClients.lookup email = none)
    (hbase : st.baseClients.lookup email = none) :
    getSurfaceClient email st =
      .ok (⟨st.nextId + 1, ⟨st.nextId, acct.oauth2⟩⟩,
        ⟨st.storage,
         (email, (⟨st.nextId, acct.oauth2⟩ : OAuth2Client)) :: st.baseClients,
         (email, (⟨st.nextId + 1, ⟨st.nextId, acct.oauth2⟩⟩ : ApiHandle)) :: st.surfaceClients,
         st.nextId + 2⟩) := by
  unfold getSurfaceClient getOAuth2Client createOAuth2Client
  rw [hsurf, hacct, hbase]

/-- Any surface-cold handle request that succeeds allocates a fresh
handle and conses it onto the surface map. -/
theorem getSurfaceClient_cold (email : String) (st : ServiceState) (h : ApiHandle)
    (st' : ServiceState) (hsurf : st.surfaceClients.lookup email = none)
    (hok : getSurfaceClient email st = .ok (h, st')) :
    st.nextId ≤ h.id ∧ st'.nextId = h.id + 1 ∧
    st'.surfaceClients = (email, h) :: st.surfaceClients := by
  unfold getSurfaceClient at hok
  rw [hsurf] at hok
  unfold getOAuth2Client at hok
  cases hacct : getAccountIn st.storage email with
  | none =>
      rw [hacct] at hok
      exact Except.noConfusion hok
  | some acct =>
      rw [hacct] at hok
      cases hbase : st.baseClients.lookup email with
      | some c =>
          rw [hbase] at hok
          simp only [Except.ok.injEq, Prod.mk.injEq] at hok
          obtain ⟨hh, hst⟩ := hok
          subst hh
          subst hst
          exact ⟨Nat.le_refl _, rfl, rfl⟩
      | none =>
          rw [hbase] at hok
          simp only [createOAuth2Client, Except.ok.injEq, Prod.mk.injEq] at hok
          obtain ⟨hh, hst⟩ := hok
          subst hh
          subst hst
          exact ⟨Nat.le_succ _, rfl, rfl⟩

/-- C3: for every surface service and stored account, the first handle
request for an (email, surface) pair constructs a handle bound to the
account's stored credentials and caches it keyed by email; a request that
finds a cached handle returns exactly that instance (so repeated requests
agree); requests for two different emails return distinct instances; a
clear with an email evicts exactly that email's surface handle, leaving
other emails' handles untouched; a clear with no argument empties the
surface handle map. -/
theorem clientCache_contract :
    (∀ (st : ServiceState) (email : String) (acct : Account),
        getAccountIn st.storage email = some acct →
        st.surfaceClients.lookup email = none →
        st.baseClients.lookup email = none →
        ∀ (h : ApiHandle) (st' : ServiceState), getSurfaceClient email st = .ok (h, st') →
          st'.surfaceClients.lookup email = some h ∧
          h.auth.creds = acct.oauth2 ∧
          getSurfaceClient email st' = .ok (h, st')) ∧
    (∀ (st : ServiceState) (email : String) (acct : Account),
        getAccountIn st.storage email = some acct →
        (getSurfaceClient email st).isOk = true) ∧
    (∀ (st : ServiceState) (email : String) (h : ApiHandle),
        st.surfaceClients.lookup email = some h →
        getSurfaceClient email st = .ok (h, st)) ∧
    (∀ (st : ServiceState) (e1 e2 : String) (h1 h2 : ApiHandle) (stA stB : ServiceState),
        e1 ≠ e2 →
        st.surfaceClients.lookup e1 = none →
        st.surfaceClients.lookup e2 = none →
        getSurfaceClient e1 st = .ok (h1, stA) →
        getSurfaceClient e2 stA = .ok (h2, stB) →
        h1 ≠ h2) ∧
    (∀ (st : ServiceState) (e : String),
        ((clearSurfaceClientCache (some e) st).surfaceClients).lookup e = none) ∧
    (∀ (st : ServiceState) (e e' : String), e' ≠ e →
        ((clearSurfaceClientCache (some e) st).surfaceClients).lookup e' =
          st.surfaceClients.lookup e') ∧
    (∀ st : ServiceState, (clearSurfaceClientCache none st).surfaceClients = []) := by
  refine ⟨?_, ?_, ?_, ?_, ?_, ?_, ?_⟩
  · intro st email acct hacct hsurf hbase h st' hok
    rw [getSurfaceClient_coldFull email st acct hacct hsurf hbase] at hok
    simp only [Except.ok.injEq, Prod.mk.injEq] at hok
    obtain ⟨hh, hst⟩ := hok
    subst hh
    subst hst
    refine ⟨lookup_cons_self _ _ _, rfl, ?_⟩
    exact getSurfaceClient_cached _ _ _ (lookup_cons_self _ _ _)
  · intro st email acct hacct
    cases hsurf : st.surfaceClients.lookup email with
    | some h => simp [getSurfaceClient_cached email st h hsurf, Except.isOk, Except.toBool]
    | none =>
        cases hbase : st.baseClients.lookup email with
        | some c =>
            simp [getSurfaceClient, getOAuth2Client, hsurf, hacct, hbase, Except.isOk,
              Except.toBool]
        | none =>
            simp [getSurfaceClient_coldFull email st acct hacct hsurf hbase, Except.isOk,
              Except.toBool]
  · intro st email h hsurf
    exact getSurfaceClient_cached email st h hsurf
  · intro st e1 e2 h1 h2 stA stB hne hs1 hs2 hok1 hok2
    obtain ⟨hle1, hnext1, hsurfA⟩ := getSurfaceClient_cold e1 st h1 stA hs1 hok1
    have hs2A : stA.surfaceClients.lookup e2 = none := by
      rw [hsurfA, lookup_cons_ne e1 e2 (Ne.symm hne)]
      exact hs2
    obtain ⟨hle2, _, _⟩ := getSurfaceClient_cold e2 stA h2 stB hs2A hok2
    intro hcontra
    have hid : h1.id = h2.id := by rw [hcontra]
    omega
  · intro st e
    exact lookup_filter_self e st.surfaceClients
  · intro st e e' hne
    exact lookup_filter_ne e e' hne st.surfaceClients
  · intro st
    rfl

/-- Witness for C3: the contract at the two-account fixture. -/
theorem clientCache_contract_witness :
    (st1.surfaceClients.lookup "a@example.com" = some handA ∧
     handA.auth.creds = acctA.oauth2 ∧
     getSurfaceClient "a@example.com" st1 = .ok (handA, st1)) ∧
    (getSurfaceClient "a@example.com" st0).isOk = true ∧
    getSurfaceClient "a@example.com" st1 = .ok (handA, st1) ∧
    handA ≠ handB ∧
    ((clearSurfaceClientCache (some "a@example.com") st1).surfaceClients).lookup
      "a@example.com" = none ∧
    ((clearSurfaceClientCache (some "a@example.com") st1).surfaceClients).lookup
      "b@example.com" = st1.surfaceClients.lookup "b@example.com" ∧
    (clearSurfaceClientCache none st1).surfaceClients = [] :=
  ⟨clientCache_contract.1 st0 "a@example.com" acctA rfl rfl rfl handA st1 rfl,
   clientCache_contract.2.1 st0 "a@example.com" acctA rfl,
   clientCache_contract.2.2.1 st1 "a@example.com" handA rfl,
   clientCache_contract.2.2.2.1 st0 "a@example.com" "b@example.com" handA handB st1 st2
     (by decide) rfl rfl rfl rfl,
   clientCache_contract.2.2.2.2.1 st1 "a@example.com",
   clientCache_contract.2.2.2.2.2.1 st1 "a@example.com" "b@example.com" (by decide),
   clientCache_contract.2.2.2.2.2.2 st1⟩

/-- C9: a per-surface cache clear does not evict only the surface handle
map: given an email it also removes that email's OAuth2 client from the
shared base cache, and given no argument it clears both the surface
handle map and the entire base client cache; consequently the next
handle request after a per-surface clear reconstructs both the auth
client and the API handle (both carry fresh allocation identities and
the auth client is rebound to the stored credentials). -/
theorem clearSurface_frame :
    (∀ (st : ServiceState) (e : String),
        ((clearSurfaceClientCache (some e) st).baseClients).lookup e = none) ∧
    (∀ st : ServiceState, (clearSurfaceClientCache none st).baseClients = [] ∧
        (clearSurfaceClientCache none st).surfaceClients = []) ∧
    (∀ (st : ServiceState) (e : String) (acct : Account),
        getAccountIn st.storage e = some acct →
        ∀ (h : ApiHandle) (st' : ServiceState),
          getSurfaceClient e (clearSurfaceClientCache (some e) st) = .ok (h, st') →
          h.auth = ⟨st.nextId, acct.oauth2⟩ ∧ h.id = st.nextId + 1) := by
  refine ⟨?_, ?_, ?_⟩
  · intro st e
    exact lookup_filter_self e st.baseClients
  · intro st
    exact ⟨rfl, rfl⟩
  · intro st e acct hacct h st' hok
    rw [getSurfaceClient_coldFull e (clearSurfaceClientCache (some e) st) acct hacct
      (lookup_filter_self e st.surfaceClients) (lookup_filter_self e st.baseClients)] at hok
    simp only [Except.ok.injEq, Prod.mk.injEq] at hok
    obtain ⟨hh, _⟩ := hok
    subst hh
    exact ⟨rfl, rfl⟩

/-- Witness for C9: the frame effect at the warmed-up fixture. -/
theorem clearSurface_frame_witness :
    ((clearSurfaceClientCache (some "a@example.com") st1).baseClients).lookup
      "a@example.com" = none ∧
    ((clearSurfaceClientCache none st1).baseClients = [] ∧
     (clearSurfaceClientCache none st1).surfaceClients = []) ∧
    ((⟨3, ⟨2, acctA.oauth2⟩⟩ : ApiHandle).auth = ⟨st1.nextId, acctA.oauth2⟩ ∧
     (⟨3, ⟨2, acctA.oauth2⟩⟩ : ApiHandle).id = st1.nextId + 1) :=
  ⟨clearSurface_frame.1 st1 "a@example.com",
   clearSurface_frame.2.1 st1,
   clearSurface_frame.2.2 st1 "a@example.com" acctA rfl ⟨3, ⟨2, acctA.oauth2⟩⟩
     ⟨[acctA, acctB],
      [("a@example.com", ⟨2, acctA.oauth2⟩)],
      [("a@example.com", ⟨3, ⟨2, acctA.oauth2⟩⟩)], 4⟩ rfl⟩

/-- Upserting a fresh email appends: the account count grows by one. -/
theorem length_upsert_of_not_has (A : Account) (l : List Account)
    (h : l.any (fun b => b.email == A.email) = false) :
    (upsert A l).length = l.length + 1 := by
  induction l with
  | nil => rfl
  | cons b rest ih =>
      simp only [List.any_cons, Bool.or_eq_false_iff, beq_eq_false_iff_ne, ne_eq] at h
      obtain ⟨h1, h2⟩ := h
      have h2' : rest.any (fun b => b.email == A.email) = false := by
        simpa [beq_eq_false_iff_ne] using h2
      simp [upsert, h1, ih h2']

/-- C10: the CLI `accounts add` command fails with
"Account '<email>' already exists" — running no flow-construction,
authorization or store step — whenever the store already holds the
email; consequently every successful add went through the fresh-email
branch, so the store-level replace-in-place overwrite is unreachable
through the CLI add command (the account count always grows by one). -/
theorem cli_add_contract :
    (∀ (st : AccountStorage) (email : String) (auth : Except String OAuthResult),
        st.hasAccount email = true →
        handleAccountsAdd st email auth =
          ([], .error ("Account '" ++ email ++ "' already exists"))) ∧
    (∀ (st : AccountStorage) (email : String) (auth : Except String OAuthResult)
        (ev : List CliEvent) (st' : AccountStorage),
        handleAccountsAdd st email auth = (ev, .ok st') →
        st.hasAccount email = false ∧
        st'.accounts.length = st.accounts.length + 1) := by
  constructor
  · intro st email auth h
    simp [handleAccountsAdd, h]
  · intro st email auth ev st' hok
    by_cases h : st.hasAccount email = true
    · simp [handleAccountsAdd, h] at hok
    · have hfalse : st.hasAccount email = false := by simpa using h
      refine ⟨hfalse, ?_⟩
      simp only [handleAccountsAdd, hfalse, Bool.false_eq_true, if_false] at hok
      cases hcreds : st.getCredentials with
      | none =>
          rw [hcreds] at hok
          simp at hok
      | some creds =>
          rw [hcreds] at hok
          cases auth with
          | error e => simp at hok
          | ok r =>
              simp only [Prod.mk.injEq, Except.ok.injEq] at hok
              obtain ⟨-, hst⟩ := hok
              subst hst
              simp only [AccountStorage.addAccount, AccountStorage.save]
              exact length_upsert_of_not_has _ _ hfalse

/-- Witness for C10: the already-exists rejection and the fresh-email
count growth at concrete stores. -/
theorem cli_add_contract_witness :
    handleAccountsAdd (AccountStorage.mk [validEntry] ⟨none, none⟩) "valid@example.com"
        (.ok ⟨"r", none⟩) =
      ([], .error "Account 'valid@example.com' already exists") ∧
    ((AccountStorage.mk [] ⟨some (.obj [("clientId", .str "i"), ("clientSecret", .str "s")]),
          none⟩).hasAccount "new@example.com" = false ∧
      ((AccountStorage.mk [] ⟨some (.obj [("clientId", .str "i"), ("clientSecret", .str "s")]),
          none⟩).addAccount
        ⟨"new@example.com", ⟨"i", "s", "r", none⟩⟩).accounts.length =
        (AccountStorage.mk [] ⟨some (.obj [("clientId", .str "i"), ("clientSecret", .str "s")]),
          none⟩).accounts.length + 1) :=
  ⟨cli_add_contract.1 (AccountStorage.mk [validEntry] ⟨none, none⟩) "valid@example.com"
      (.ok ⟨"r", none⟩) (by decide),
   cli_add_contract.2
     (AccountStorage.mk [] ⟨some (.obj [("clientId", .str "i"), ("clientSecret", .str "s")]),
        none⟩)
     "new@example.com" (.ok ⟨"r", none⟩)
     [.constructedOAuthFlow, .authorized, .addedAccount]
     ((AccountStorage.mk [] ⟨some (.obj [("clientId", .str "i"), ("clientSecret", .str "s")]),
        none⟩).addAccount ⟨"new@example.com", ⟨"i", "s", "r", none⟩⟩) rfl⟩

end GDCli
